import Mathlib

/-!
# OnlineJudge scaffold: `compiler/temp/.../main.cpp`

A shallow embedding of the generated judge scaffold: the solution stub
`Solution::solve`, the first `main` that prints its value, the helper
`parseIntArray`, and the second `main` (the test harness loop with its
`try`/`catch`).

Conventions of the embedding.

* `std::string` is a Lean `String`; `cout` is the text written so far, and
  `endl` appends a newline character.
* A C++ `int` is an `Int` kept in range by `toInt32` after every arithmetic
  step and every conversion from `size_t`.
* `stringstream` extraction works on the list of characters still unread;
  a failed extraction (`failbit`) is `none`.
* The statements of the `try` block that can throw a `std::exception`
  (they allocate: building the `stringstream`, `getline`, `push_back`,
  copying a string) all come before the first change to `passedCount` or
  `cout`; whether one of them throws in iteration `i`, and with which
  `what()` text, is given by an oracle `fault : Nat → Option String`.
-/

namespace OnlineJudge

/-! ## Machine integers -/

/-- Largest value of a C++ `int`. -/
def INT_MAX : Int := 2147483647

/-- Smallest value of a C++ `int`. -/
def INT_MIN : Int := -2147483648

/-- The `int` that holds the mathematical integer `n` (two's complement wrap). -/
def toInt32 (n : Int) : Int := (n + 2147483648) % 4294967296 - 2147483648

/-! ## Console output -/

/-- The lines of a console text: the segments between newline characters; the
empty segment after a final newline is not a line. -/
def consoleLines (out : String) : List String :=
  let segs := (out.data.splitOn '\n').map String.mk
  if segs.getLast? = some "" then segs.dropLast else segs

/-! ## The solution stub and the first `main` -/

/-- The class `Solution`: it has no data members. -/
structure Solution where
  deriving DecidableEq

/-- `int Solution::solve()`: `return 0;`. -/
def Solution.solve (_self : Solution) : Int := 0

/-- What a run of a `main` leaves behind: the text on `cout` and the exit code. -/
structure Run where
  out : String
  exitCode : Int
  deriving DecidableEq

/-- The first `main`: `Solution sol; cout << sol.solve() << endl; return 0;`. -/
def firstMain : Run :=
  let sol : Solution := {}
  { out := "" ++ toString sol.solve ++ "\n", exitCode := 0 }

/-! ## Test cases -/

/-- `struct TestCase { string input; string expectedOutput; }`. -/
structure TestCase where
  input : String
  expectedOutput : String
  deriving DecidableEq

/-! ## `getline` and the line splitting of the harness -/

/-- Characters read by `getline` up to the delimiter: `line` holds the characters
already read (latest first). Returns the line and the unread rest; the newline
is consumed and not stored. -/
def getlineAux : List Char → List Char → List Char × List Char
  | [], line => (line.reverse, [])
  | c :: rest, line => if c = '\n' then (line.reverse, rest) else getlineAux rest (c :: line)

/-- `getline(inputStream, line)` on the unread characters: fails (`none`) when no
character at all can be extracted, i.e. at end of input. -/
def getline (unread : List Char) : Option (String × List Char) :=
  match unread with
  | [] => none
  | _ :: _ => let r := getlineAux unread []; some (String.mk r.1, r.2)

/-- The loop `while (getline(inputStream, line)) { if (!line.empty()) lines.push_back(line); }`
with at most `fuel` calls of `getline`. -/
def splitLoop : Nat → List Char → List String → List String
  | 0, _, lines => lines
  | fuel + 1, unread, lines =>
    match getline unread with
    | none => lines
    | some (line, unread') =>
      splitLoop fuel unread' (if line ≠ "" then lines ++ [line] else lines)

/-- The harness's line splitting of `input`: every successful `getline` consumes at
least one character, so `input.length + 1` calls always reach the failing one. -/
def splitLines (input : String) : List String :=
  splitLoop (input.length + 1) input.data []

/-- Following the spec's words: cut the input at every newline and keep the
non-empty segments, in order. -/
def nonEmptySegments (input : String) : List String :=
  ((input.data.splitOn '\n').filter (fun seg => seg ≠ [])).map String.mk

/-! ## The harness loop -/

/-- The variables of `main` that the loop body changes: `passedCount` and `cout`. -/
structure HarnessState where
  passedCount : Int
  out : String
  deriving DecidableEq

/-- The locals of one `try` block after the comparison. -/
structure Verdict where
  lines : List String
  result : String
  expectedOutput : String
  passed : Bool
  deriving DecidableEq

/-- The `try` block up to `bool passed = (result == expectedOutput);`. -/
def evaluateCase (testCase : TestCase) : Verdict :=
  let lines := splitLines testCase.input
  let result := ""
  let expectedOutput := testCase.expectedOutput
  let passed := decide (result = expectedOutput)
  { lines := lines, result := result, expectedOutput := expectedOutput, passed := passed }

/-- The `try` block of iteration `i` on `testCase`. `fault = some msg` means one of
the allocating statements at its start throws a `std::exception` whose `what()`
is `msg`; nothing has been changed at that point. -/
def tryBlock (fault : Option String) (i : Int) (testCase : TestCase) (st : HarnessState) :
    Except String HarnessState :=
  match fault with
  | some msg => Except.error msg
  | none =>
    let v := evaluateCase testCase
    let passedCount := if v.passed then toInt32 (st.passedCount + 1) else st.passedCount
    let out := st.out ++ "Test " ++ toString (toInt32 (i + 1)) ++ ": "
      ++ (if v.passed then "PASS" else "FAIL") ++ "\n"
    let out := if !v.passed then
        out ++ "  Input: " ++ testCase.input ++ "\n"
          ++ "  Expected: " ++ v.expectedOutput ++ "\n"
          ++ "  Actual: " ++ v.result ++ "\n"
      else out
    Except.ok { passedCount := passedCount, out := out }

/-- The handler `catch (const exception& e)` of iteration `i`. -/
def catchBlock (i : Int) (what : String) (st : HarnessState) : HarnessState :=
  { st with out := st.out ++ "Test " ++ toString (toInt32 (i + 1)) ++ ": FAIL" ++ "\n"
      ++ "  Error: " ++ what ++ "\n" }

/-- One iteration of the `for` loop: the `try` block, and the handler if it throws. -/
def iteration (fault : Option String) (i : Int) (testCase : TestCase) (st : HarnessState) :
    HarnessState :=
  match tryBlock fault i testCase st with
  | Except.ok st' => st'
  | Except.error what => catchBlock i what st

/-- The loop `for (int i = 0; i < testCases.size(); i++)` from index `i` on, over the
test cases not yet run; `k` is the position of the next case, so that `fault k`
is the oracle's answer for it. -/
def harnessLoop (fault : Nat → Option String) :
    List TestCase → Nat → Int → HarnessState → HarnessState
  | [], _, _, st => st
  | testCase :: rest, k, i, st =>
    harnessLoop fault rest (k + 1) (toInt32 (i + 1)) (iteration (fault k) i testCase st)

/-- The second `main` on an arbitrary list of test cases. -/
def runHarness (fault : Nat → Option String) (testCases : List TestCase) : Run :=
  let passedCount : Int := 0
  let totalCount : Int := toInt32 testCases.length
  let st := harnessLoop fault testCases 0 0 { passedCount := passedCount, out := "" }
  { out := st.out ++ "TEST_RESULTS: " ++ toString st.passedCount ++ "/"
      ++ toString totalCount ++ "\n",
    exitCode := 0 }

/-- The three built-in test cases of the second `main`. -/
def testCases : List TestCase :=
  [ { input := "2 4 3\n5 6 4", expectedOutput := "7 0 8" },
    { input := "0\n0", expectedOutput := "0" },
    { input := "9 9 9 9 9 9 9\n9 9 9 9", expectedOutput := "8 9 9 9 0 0 0 1" } ]

/-- No statement throws. -/
def noFault : Nat → Option String := fun _ => none

/-- The second `main`. -/
def secondMain (fault : Nat → Option String) : Run := runHarness fault testCases

/-! ## `parseIntArray` -/

/-- `isspace` in the "C" locale: space, `\t`, `\n`, `\v`, `\f`, `\r`. -/
def isSpace (c : Char) : Bool :=
  c = ' ' || c = '\t' || c = '\n' || c = '\x0b' || c = '\x0c' || c = '\r'

/-- Value of a decimal digit character. -/
def digitValue (c : Char) : Nat := c.toNat - 48

/-- The whitespace skipping done by the input `sentry` before a formatted extraction. -/
def skipWhitespace : List Char → List Char
  | [] => []
  | c :: rest => if isSpace c then skipWhitespace rest else c :: rest

/-- Accumulation of the run of decimal digits at the front of the unread
characters; returns the accumulated magnitude and the unread rest. -/
def readDigits : List Char → Nat → Nat × List Char
  | [], acc => (acc, [])
  | c :: rest, acc =>
    if c.isDigit then readDigits rest (10 * acc + digitValue c) else (acc, c :: rest)

/-- The extraction `ss >> num` for `int num` on the unread characters: skip
whitespace, read an optional sign and a non-empty run of decimal digits. The
extraction fails (`failbit`, here `none`) at end of input, when no digit follows,
and when the value does not fit an `int`. -/
def extractInt (unread : List Char) : Option (Int × List Char) :=
  match skipWhitespace unread with
  | [] => none
  | c :: rest =>
    let negative : Bool := c = '-'
    let body := if c = '-' ∨ c = '+' then rest else c :: rest
    match body with
    | [] => none
    | d :: _ =>
      if d.isDigit then
        let r := readDigits body 0
        let value : Int := if negative then -(r.1 : Int) else (r.1 : Int)
        if INT_MIN ≤ value ∧ value ≤ INT_MAX then some (value, r.2) else none
      else none

/-- The loop `while (ss >> num) { result.push_back(num); }` with at most `fuel`
extractions. -/
def parseLoop : Nat → List Char → List Int → List Int
  | 0, _, result => result
  | fuel + 1, unread, result =>
    match extractInt unread with
    | none => result
    | some (num, unread') => parseLoop fuel unread' (result ++ [num])

/-- `vector<int> parseIntArray(string line)`: every successful extraction consumes at
least one character, so `line.length + 1` extractions always reach the failing one. -/
def parseIntArray (line : String) : List Int :=
  parseLoop (line.length + 1) line.data []

/-! ## Decimal rendering of integer lists (the inputs `parseIntArray` is meant for) -/

/-- The elements written in decimal and joined by single spaces. -/
def render (xs : List Int) : String :=
  " ".intercalate (xs.map toString)

/-- A string made of whitespace characters only. -/
def isBlank (s : String) : Bool := s.data.all isSpace

/-- Each element written in decimal after its own run of whitespace, and `trail`
after the last one. -/
def renderSpaced (items : List (String × Int)) (trail : String) : String :=
  String.join (items.map fun p => p.1 ++ toString p.2) ++ trail

/-- The layout of `render`: nothing before the first element, one space before each
of the others. -/
def singleSpaced : List Int → List (String × Int)
  | [] => []
  | x :: rest => ("", x) :: rest.map fun y => (" ", y)

/-- The characters are empty or start with a character that is not a decimal digit. -/
def noDigitAhead (s : List Char) : Bool :=
  match s with
  | [] => true
  | c :: _ => !c.isDigit

/-! ## Observations on a run of the harness -/

/-- The text that the iteration at index `i` appends to `cout`. -/
def caseText (fault : Option String) (i : Int) (tc : TestCase) : String :=
  (iteration fault i tc { passedCount := 0, out := "" }).out

/-- The text of the iteration at position `k` opens with the line "Test k+1: PASS". -/
def passLinePrinted (fault : Option String) (k : Nat) (tc : TestCase) : Bool :=
  ("Test " ++ toString (k + 1) ++ ": PASS\n").data.isPrefixOf (caseText fault k tc).data

/-- The report of the test case at position `k`: its verdict line, and after a FAIL
line the detail lines of the case (the error line when the iteration threw). -/
def caseReport (fault : Option String) (k : Nat) (tc : TestCase) : String :=
  match fault with
  | some msg => "Test " ++ toString (k + 1) ++ ": FAIL\n" ++ "  Error: " ++ msg ++ "\n"
  | none =>
    if tc.expectedOutput = "" then "Test " ++ toString (k + 1) ++ ": PASS\n"
    else "Test " ++ toString (k + 1) ++ ": FAIL\n" ++ "  Input: " ++ tc.input ++ "\n"
      ++ "  Expected: " ++ tc.expectedOutput ++ "\n" ++ "  Actual: \n"

set_option maxRecDepth 20000

/-! ## The solution stub -/

/-- C1: `Solution::solve` returns 0 for every receiver (it takes no other input and
has no failing path), and the first `main` writes exactly the text `0` followed by a
newline, i.e. the single line "0", and exits with code 0. -/
theorem solve_zero_firstMain_prints_zero :
    (∀ sol : Solution, sol.solve = 0) ∧ firstMain.out = "0\n" ∧
      consoleLines firstMain.out = ["0"] ∧ firstMain.exitCode = 0 :=
  ⟨fun _ => rfl, by decide, by decide, rfl⟩

/-! ## The verdict of one test case -/

theorem evaluateCase_passed (tc : TestCase) :
    (evaluateCase tc).passed = decide (tc.expectedOutput = "") := by
  simp [evaluateCase, eq_comm]

theorem tryBlock_none (i : Int) (tc : TestCase) (st : HarnessState) :
    tryBlock none i tc st = Except.ok
      (if tc.expectedOutput = "" then
        { passedCount := toInt32 (st.passedCount + 1),
          out := st.out ++ "Test " ++ toString (toInt32 (i + 1)) ++ ": " ++ "PASS" ++ "\n" }
      else
        { passedCount := st.passedCount,
          out := st.out ++ "Test " ++ toString (toInt32 (i + 1)) ++ ": " ++ "FAIL" ++ "\n"
            ++ "  Input: " ++ tc.input ++ "\n" ++ "  Expected: " ++ tc.expectedOutput ++ "\n"
            ++ "  Actual: " ++ "" ++ "\n" }) := by
  by_cases h : tc.expectedOutput = ""
  · simp [tryBlock, evaluateCase_passed, h]
  · have hres : (evaluateCase tc).result = "" := rfl
    have hexp : (evaluateCase tc).expectedOutput = tc.expectedOutput := rfl
    simp [tryBlock, evaluateCase_passed, h, hres, hexp]

/-- C2: the computed result of a test case is the empty string whatever its input;
two cases with the same expected output and arbitrary inputs get the same verdict
and the same change of `passedCount`; the verdict is "passed" exactly when the
expected output is empty, and the line reported by the iteration is "Test N: PASS"
in that case and "Test N: FAIL" otherwise. -/
theorem verdict_ignores_input :
    (∀ tc : TestCase, (evaluateCase tc).result = "") ∧
    (∀ inp₁ inp₂ exp : String,
      (evaluateCase { input := inp₁, expectedOutput := exp }).passed
        = (evaluateCase { input := inp₂, expectedOutput := exp }).passed) ∧
    (∀ (inp₁ inp₂ exp : String) (i : Int) (st : HarnessState),
      (iteration none i { input := inp₁, expectedOutput := exp } st).passedCount
        = (iteration none i { input := inp₂, expectedOutput := exp } st).passedCount) ∧
    (∀ tc : TestCase, (evaluateCase tc).passed = true ↔ tc.expectedOutput = "") ∧
    (∀ (tc : TestCase) (i : Int) (st : HarnessState), ∃ details : String,
      (iteration none i tc st).out
        = st.out ++ "Test " ++ toString (toInt32 (i + 1)) ++ ": "
            ++ (if tc.expectedOutput = "" then "PASS" else "FAIL") ++ "\n" ++ details) := by
  refine ⟨fun _ => rfl, ?_, ?_, ?_, ?_⟩
  · intro inp₁ inp₂ exp
    simp [evaluateCase_passed]
  · intro inp₁ inp₂ exp i st
    simp only [iteration, tryBlock_none]
    by_cases h : exp = "" <;> simp [h]
  · intro tc
    simp [evaluateCase_passed]
  · intro tc i st
    simp only [iteration, tryBlock_none]
    by_cases h : tc.expectedOutput = ""
    · exact ⟨"", by simp [h]⟩
    · exact ⟨"  Input: " ++ tc.input ++ "\n" ++ "  Expected: " ++ tc.expectedOutput ++ "\n"
        ++ "  Actual: " ++ "" ++ "\n", by simp only [if_neg h, String.append_assoc]⟩

/-- C3 (as stated, refuted): on the built-in test cases it is not the case that the
comparison fails for exactly two of them and matches for the remaining one. -/
theorem builtin_not_two_mismatches :
    ¬ ((testCases.filter fun tc => !(evaluateCase tc).passed).length = 2 ∧
       (testCases.filter fun tc => (evaluateCase tc).passed).length = 1) := by
  decide

/-- C3 (amended): the built-in list has three cases with expected outputs "7 0 8",
"0" and "8 9 9 9 0 0 0 1"; the comparison of the computed result with the expected
output fails for all three of them and matches for none. -/
theorem builtin_all_mismatch :
    testCases.map TestCase.expectedOutput = ["7 0 8", "0", "8 9 9 9 0 0 0 1"] ∧
    (testCases.filter fun tc => !(evaluateCase tc).passed).length = 3 ∧
    (testCases.filter fun tc => (evaluateCase tc).passed).length = 0 := by
  decide

/-! ## Line splitting -/

theorem getlineAux_rest_length (s acc : List Char) :
    (getlineAux s acc).2.length ≤ s.length - 1 := by
  induction s generalizing acc with
  | nil => simp [getlineAux]
  | cons c t ih =>
    by_cases hc : c = '\n'
    · simp [getlineAux, hc]
    · have := ih (c :: acc)
      simp only [getlineAux, if_neg hc, List.length_cons, Nat.add_sub_cancel]
      omega

theorem getlineAux_segments (s acc : List Char) :
    (((s.splitOn '\n').modifyHead (acc.reverse ++ ·)).filter fun seg => seg ≠ [])
      = (if (getlineAux s acc).1 ≠ [] then [(getlineAux s acc).1] else [])
          ++ (((getlineAux s acc).2.splitOn '\n').filter fun seg => seg ≠ []) := by
  induction s generalizing acc with
  | nil =>
    by_cases h : acc = [] <;> simp [getlineAux, List.splitOn, List.filter, h]
  | cons c t ih =>
    by_cases hc : c = '\n'
    · by_cases h : acc = [] <;>
        simp [getlineAux, List.splitOn, hc, List.filter, h]
    · have h1 := ih (c :: acc)
      simp only [List.splitOn] at h1 ⊢
      simp only [getlineAux, if_neg hc, List.splitOnP_cons, beq_iff_eq, List.modifyHead_modifyHead]
      rw [← h1]
      congr 2
      funext x
      simp

theorem splitLoop_eq (fuel : Nat) (s : List Char) (lines : List String) (h : s.length < fuel) :
    splitLoop fuel s lines
      = lines ++ ((s.splitOn '\n').filter fun seg => seg ≠ []).map String.mk := by
  induction fuel generalizing s lines with
  | zero => omega
  | succ fuel ih =>
    cases s with
    | nil => simp [splitLoop, getline, List.splitOn, List.filter]
    | cons c t =>
      have hlen := getlineAux_rest_length (c :: t) []
      have hseg := getlineAux_segments (c :: t) []
      simp only [List.length_cons, Nat.add_sub_cancel] at hlen h
      simp only [List.reverse_nil, List.nil_append] at hseg
      have hid : (fun x : List Char => x) = id := rfl
      rw [hid, List.modifyHead_id] at hseg
      simp only [id_eq] at hseg
      simp only [splitLoop, getline]
      rw [ih _ _ (by omega), hseg]
      by_cases hl : (getlineAux (c :: t) []).1 = []
      · simp [hl]
      · have : String.mk (getlineAux (c :: t) []).1 ≠ "" := by
          intro e
          exact hl (congrArg String.data e)
        simp [hl, this]

theorem splitOn_segment_no_sep (s : List Char) :
    ∀ seg ∈ s.splitOn '\n', '\n' ∉ seg := by
  induction s with
  | nil => simp [List.splitOn]
  | cons c t ih =>
    simp only [List.splitOn] at ih ⊢
    rw [List.splitOnP_cons]
    by_cases hc : c = '\n'
    · simp only [hc, beq_self_eq_true, if_true, List.mem_cons]
      rintro seg (rfl | h)
      · simp
      · exact ih seg h
    · have hb : ¬ ((c == '\n') = true) := by simpa using hc
      rw [if_neg hb]
      cases hsp : List.splitOnP (fun x => x == '\n') t with
      | nil => simp [List.modifyHead]
      | cons a l =>
        rw [hsp] at ih
        simp only [List.modifyHead, List.mem_cons]
        rintro seg (rfl | h)
        · have := ih a (by simp)
          simp only [List.mem_cons, not_or]
          exact ⟨fun e => hc e.symm, this⟩
        · exact ih seg (by simp [h])

/-- C7: the harness's line splitting returns exactly the non-empty segments of the
input cut at every newline, in their order; no collected line is empty or contains
a newline; and the built-in input "2 4 3\n5 6 4" gives the lines "2 4 3" and
"5 6 4". -/
theorem splitLines_nonEmptySegments :
    (∀ input : String, splitLines input = nonEmptySegments input) ∧
    (∀ (input line : String), line ∈ splitLines input → line ≠ "" ∧ '\n' ∉ line.data) ∧
    splitLines "2 4 3\n5 6 4" = ["2 4 3", "5 6 4"] ∧
    splitLines "\n\na\n\nb\n" = ["a", "b"] := by
  have main : ∀ input : String, splitLines input = nonEmptySegments input := by
    intro input
    simp only [splitLines, nonEmptySegments]
    have hfuel : input.data.length < input.length + 1 := Nat.lt_succ_self _
    rw [splitLoop_eq _ _ _ hfuel]
    simp
  refine ⟨main, ?_, by decide, by decide⟩
  intro input line hl
  rw [main] at hl
  simp only [nonEmptySegments, List.mem_map, List.mem_filter] at hl
  obtain ⟨seg, ⟨hseg, hne⟩, rfl⟩ := hl
  refine ⟨?_, splitOn_segment_no_sep _ seg hseg⟩
  intro e
  have : seg = [] := congrArg String.data e
  simp [this] at hne

/-! ## The harness loop -/

theorem toInt32_of_range (n : Int) (h₁ : INT_MIN ≤ n) (h₂ : n ≤ INT_MAX) : toInt32 n = n := by
  simp only [toInt32, INT_MIN, INT_MAX] at *
  omega

theorem toString_natCast (n : Nat) : toString (n : Int) = toString n := rfl

theorem iteration_some (msg : String) (i : Int) (tc : TestCase) (st : HarnessState) :
    iteration (some msg) i tc st
      = { passedCount := st.passedCount,
          out := st.out ++ "Test " ++ toString (toInt32 (i + 1)) ++ ": FAIL" ++ "\n"
            ++ "  Error: " ++ msg ++ "\n" } := rfl

theorem iteration_out (fault : Option String) (i : Int) (tc : TestCase) (st : HarnessState) :
    (iteration fault i tc st).out = st.out ++ caseText fault i tc := by
  cases fault with
  | some msg => simp only [caseText, iteration_some, String.append_assoc, String.empty_append]
  | none =>
    simp only [caseText, iteration, tryBlock_none]
    by_cases h : tc.expectedOutput = ""
    · simp only [if_pos h, String.append_assoc, String.empty_append]
    · simp only [if_neg h, String.append_assoc, String.empty_append]

theorem iteration_passedCount (fault : Option String) (i : Int) (tc : TestCase)
    (st : HarnessState) :
    (iteration fault i tc st).passedCount
      = if fault = none ∧ tc.expectedOutput = "" then toInt32 (st.passedCount + 1)
        else st.passedCount := by
  cases fault with
  | some msg => simp [iteration_some]
  | none =>
    simp only [iteration, tryBlock_none]
    by_cases h : tc.expectedOutput = "" <;> simp [h]

theorem caseText_eq_caseReport (fault : Option String) (k : Nat) (tc : TestCase)
    (hk : (k : Int) + 1 ≤ INT_MAX) : caseText fault k tc = caseReport fault k tc := by
  have hr : toInt32 ((k : Int) + 1) = ((k + 1 : Nat) : Int) := by
    rw [toInt32_of_range _ (by simp only [INT_MIN]; omega) hk]
    push_cast
    rfl
  cases fault with
  | some msg =>
    simp only [caseText, iteration_some, caseReport, hr, toString_natCast]
    apply String.ext
    simp [String.data_append]
  | none =>
    simp only [caseText, iteration, tryBlock_none, caseReport, hr, toString_natCast]
    by_cases h : tc.expectedOutput = ""
    · simp only [if_pos h]
      apply String.ext
      simp [String.data_append]
    · simp only [if_neg h]
      apply String.ext
      simp [String.data_append]

theorem passLinePrinted_iff (fault : Option String) (k : Nat) (tc : TestCase)
    (hk : (k : Int) + 1 ≤ INT_MAX) :
    passLinePrinted fault k tc = true ↔ fault = none ∧ tc.expectedOutput = "" := by
  simp only [passLinePrinted, caseText_eq_caseReport fault k tc hk, List.isPrefixOf_iff_prefix]
  cases fault with
  | some msg =>
    simp [caseReport, String.data_append, List.append_assoc, List.prefix_append_right_inj]
  | none =>
    by_cases h : tc.expectedOutput = ""
    · simp [caseReport, h]
    · simp [caseReport, h, String.data_append, List.append_assoc,
        List.prefix_append_right_inj]

theorem join_cons (a : String) (l : List String) : String.join (a :: l) = a ++ String.join l := by
  apply String.ext
  simp [String.data_join, String.data_append]

theorem harnessLoop_closed_form (fault : Nat → Option String) (tcs : List TestCase) :
    ∀ (k : Nat) (st : HarnessState), (k : Int) + tcs.length ≤ INT_MAX →
      0 ≤ st.passedCount → st.passedCount ≤ k →
      harnessLoop fault tcs k (k : Int) st
        = { passedCount := st.passedCount
              + (((tcs.enumFrom k).filter fun p => passLinePrinted (fault p.1) p.1 p.2).length : Nat),
            out := st.out
              ++ String.join ((tcs.enumFrom k).map fun p => caseText (fault p.1) p.1 p.2) } := by
  induction tcs with
  | nil =>
    intro k st _ _ _
    simp [harnessLoop, String.join]
  | cons tc rest ih =>
    intro k st hlen h0 hk
    simp only [List.length_cons, Nat.cast_add, Nat.cast_one] at hlen
    have hk1 : (k : Int) + 1 ≤ INT_MAX := by omega
    have hr : toInt32 ((k : Int) + 1) = ((k + 1 : Nat) : Int) := by
      rw [toInt32_of_range _ (by simp only [INT_MIN]; omega) hk1]
      push_cast
      rfl
    have hpc := iteration_passedCount (fault k) k tc st
    have hpl := passLinePrinted_iff (fault k) k tc hk1
    have hinc : toInt32 (st.passedCount + 1) = st.passedCount + 1 :=
      toInt32_of_range _ (by simp only [INT_MIN]; omega) (by omega)
    simp only [harnessLoop, hr]
    rw [ih (k + 1) _ (by push_cast; omega) (by rw [hpc]; split <;> omega)
      (by rw [hpc]; push_cast; split <;> omega)]
    simp only [List.enumFrom_cons, List.map_cons, List.filter_cons, iteration_out,
      String.append_assoc]
    by_cases hp : fault k = none ∧ tc.expectedOutput = ""
    · have hpt : passLinePrinted (fault k) k tc = true := hpl.mpr hp
      simp only [hpc, if_pos hp, hinc, hpt, if_true, List.length_cons, Nat.cast_add,
        Nat.cast_one, join_cons, HarnessState.mk.injEq, and_true]
      omega
    · have hpf : passLinePrinted (fault k) k tc = false := by
        cases hb : passLinePrinted (fault k) k tc with
        | false => rfl
        | true => exact absurd (hpl.mp hb) hp
      simp only [hpc, if_neg hp, hpf, Bool.false_eq_true, if_false, join_cons]

theorem runHarness_closed_form (fault : Nat → Option String) (tcs : List TestCase)
    (hlen : (tcs.length : Int) ≤ INT_MAX) :
    (runHarness fault tcs).out
      = String.join (tcs.enum.map fun p => caseText (fault p.1) p.1 p.2)
          ++ "TEST_RESULTS: "
          ++ toString ((tcs.enum.filter fun p => passLinePrinted (fault p.1) p.1 p.2).length)
          ++ "/" ++ toString tcs.length ++ "\n" := by
  have h := harnessLoop_closed_form fault tcs 0 { passedCount := 0, out := "" }
    (by simpa using hlen) (le_refl _) (le_refl _)
  have ht : toInt32 (tcs.length : Int) = (tcs.length : Int) :=
    toInt32_of_range _ (by simp only [INT_MIN]; omega) hlen
  simp only [Nat.cast_zero] at h
  simp only [runHarness, h, ht, zero_add, toString_natCast, String.empty_append, List.enum]

theorem join_append (l₁ l₂ : List String) :
    String.join (l₁ ++ l₂) = String.join l₁ ++ String.join l₂ := by
  apply String.ext
  simp [String.data_join, String.data_append]

/-- C4 (as stated, refuted): the lines written by the second `main` are not just
three verdict lines "Test 1: ...", "Test 2: ...", "Test 3: ..." followed by one
"TEST_RESULTS: x/y" line, whatever the verdicts and the numbers x and y. -/
theorem secondMain_lines_not_only_verdicts :
    ¬ ∃ (v₁ v₂ v₃ : Bool) (x y : Int),
      consoleLines (secondMain noFault).out
        = [ "Test 1: " ++ (if v₁ then "PASS" else "FAIL"),
            "Test 2: " ++ (if v₂ then "PASS" else "FAIL"),
            "Test 3: " ++ (if v₃ then "PASS" else "FAIL"),
            "TEST_RESULTS: " ++ toString x ++ "/" ++ toString y ] := by
  rintro ⟨v₁, v₂, v₃, x, y, h⟩
  have hlen : (consoleLines (secondMain noFault).out).length = 16 := by decide
  rw [h] at hlen
  simp only [List.length_cons, List.length_nil] at hlen
  omega

/-- C4 (amended): the complete console output of the harness is, for each test case
in list order with N = 1, 2, 3, ..., the report of that case, namely the line
"Test N: PASS", or the line "Test N: FAIL" followed by the detail lines
"  Input: <input>", "  Expected: <expectedOutput>" and "  Actual: " (by the line
"  Error: <message>" when the iteration threw), and after the last report exactly
one line "TEST_RESULTS: x/y"; nothing else is written. -/
theorem runHarness_output_reports_then_results (fault : Nat → Option String)
    (tcs : List TestCase) (hlen : (tcs.length : Int) ≤ INT_MAX) :
    ∃ x y : Nat,
      (runHarness fault tcs).out
        = String.join (tcs.enum.map fun p => caseReport (fault p.1) p.1 p.2)
            ++ "TEST_RESULTS: " ++ toString x ++ "/" ++ toString y ++ "\n" := by
  refine ⟨(tcs.enum.filter fun p => passLinePrinted (fault p.1) p.1 p.2).length,
    tcs.length, ?_⟩
  rw [runHarness_closed_form fault tcs hlen]
  have hmap : (tcs.enum.map fun p => caseText (fault p.1) p.1 p.2)
      = tcs.enum.map fun p => caseReport (fault p.1) p.1 p.2 := by
    apply List.map_congr_left
    intro p hp
    have hlt := List.fst_lt_of_mem_enum hp
    exact caseText_eq_caseReport _ _ _ (by omega)
  rw [hmap]

/-- Witness for C4 (amended): the second `main` with its three built-in cases. -/
theorem runHarness_output_reports_then_results_witness :
    ((testCases.length : Int) ≤ INT_MAX) ∧
    ∃ x y : Nat,
      (runHarness noFault testCases).out
        = String.join (testCases.enum.map fun p => caseReport (noFault p.1) p.1 p.2)
            ++ "TEST_RESULTS: " ++ toString x ++ "/" ++ toString y ++ "\n" :=
  ⟨by decide, runHarness_output_reports_then_results noFault testCases (by decide)⟩

/-- C5: for every list of test cases (of a size that fits the `int` counters) the
output ends with the line "TEST_RESULTS: x/y" where y is the number of test cases
and x is the number of cases whose report opens with a "Test N: PASS" line; so
0 ≤ x ≤ y; and the built-in list has y = 3. -/
theorem test_results_counts (fault : Nat → Option String) (tcs : List TestCase)
    (hlen : (tcs.length : Int) ≤ INT_MAX) :
    (runHarness fault tcs).out
        = String.join (tcs.enum.map fun p => caseText (fault p.1) p.1 p.2)
            ++ "TEST_RESULTS: "
            ++ toString (tcs.enum.filter fun p => passLinePrinted (fault p.1) p.1 p.2).length
            ++ "/" ++ toString tcs.length ++ "\n" ∧
    0 ≤ (tcs.enum.filter fun p => passLinePrinted (fault p.1) p.1 p.2).length ∧
    (tcs.enum.filter fun p => passLinePrinted (fault p.1) p.1 p.2).length ≤ tcs.length ∧
    testCases.length = 3 := by
  refine ⟨runHarness_closed_form fault tcs hlen, Nat.zero_le _, ?_, rfl⟩
  calc (tcs.enum.filter fun p => passLinePrinted (fault p.1) p.1 p.2).length
      ≤ tcs.enum.length := List.length_filter_le _ _
    _ = tcs.length := List.enum_length

/-- Witness for C5: a list with one passing and one failing case; the run prints
"TEST_RESULTS: 1/2". -/
theorem test_results_counts_witness :
    ((([⟨"1 2", ""⟩, ⟨"3", "4"⟩] : List TestCase).length : Int) ≤ INT_MAX) ∧
    ((runHarness noFault [⟨"1 2", ""⟩, ⟨"3", "4"⟩]).out
        = String.join (([⟨"1 2", ""⟩, ⟨"3", "4"⟩] : List TestCase).enum.map
            fun p => caseText (noFault p.1) p.1 p.2)
            ++ "TEST_RESULTS: "
            ++ toString ((([⟨"1 2", ""⟩, ⟨"3", "4"⟩] : List TestCase).enum.filter
                fun p => passLinePrinted (noFault p.1) p.1 p.2).length)
            ++ "/" ++ toString ([⟨"1 2", ""⟩, ⟨"3", "4"⟩] : List TestCase).length ++ "\n" ∧
      0 ≤ ((([⟨"1 2", ""⟩, ⟨"3", "4"⟩] : List TestCase).enum.filter
                fun p => passLinePrinted (noFault p.1) p.1 p.2).length) ∧
      ((([⟨"1 2", ""⟩, ⟨"3", "4"⟩] : List TestCase).enum.filter
                fun p => passLinePrinted (noFault p.1) p.1 p.2).length)
        ≤ ([⟨"1 2", ""⟩, ⟨"3", "4"⟩] : List TestCase).length ∧
      testCases.length = 3) ∧
    (runHarness noFault [⟨"1 2", ""⟩, ⟨"3", "4"⟩]).out
      = "Test 1: PASS\nTest 2: FAIL\n  Input: 3\n  Expected: 4\n  Actual: \n"
        ++ "TEST_RESULTS: 1/2\n" :=
  ⟨by decide, test_results_counts noFault [⟨"1 2", ""⟩, ⟨"3", "4"⟩] (by decide), by decide⟩

/-- C6: when the iteration of the case at position `pre.length` (case number
N = `pre.length + 1`) throws an exception with message `msg`, that iteration leaves
`passedCount` unchanged and appends exactly "Test N: FAIL" and "  Error: msg";
the output of the whole run consists of the texts of the earlier cases, these two
lines, the texts of every later case, and the final "TEST_RESULTS: x/y" line, where
x counts the PASS lines of the earlier and later cases only. -/
theorem thrown_iteration_reported_and_loop_continues (fault : Nat → Option String)
    (pre : List TestCase) (tc : TestCase) (post : List TestCase) (msg : String)
    (hlen : ((pre ++ tc :: post).length : Int) ≤ INT_MAX)
    (hf : fault pre.length = some msg) :
    (∀ (i : Int) (st : HarnessState),
      iteration (some msg) i tc st
        = { passedCount := st.passedCount,
            out := st.out ++ "Test " ++ toString (toInt32 (i + 1)) ++ ": FAIL" ++ "\n"
              ++ "  Error: " ++ msg ++ "\n" }) ∧
    (runHarness fault (pre ++ tc :: post)).out
      = String.join (pre.enum.map fun p => caseText (fault p.1) p.1 p.2)
          ++ ("Test " ++ toString (pre.length + 1) ++ ": FAIL\n" ++ "  Error: " ++ msg ++ "\n")
          ++ String.join ((post.enumFrom (pre.length + 1)).map
              fun p => caseText (fault p.1) p.1 p.2)
          ++ "TEST_RESULTS: "
          ++ toString ((pre.enum.filter fun p => passLinePrinted (fault p.1) p.1 p.2).length
              + ((post.enumFrom (pre.length + 1)).filter
                  fun p => passLinePrinted (fault p.1) p.1 p.2).length)
          ++ "/" ++ toString (pre ++ tc :: post).length ++ "\n" := by
  refine ⟨fun i st => rfl, ?_⟩
  have hk : (pre.length : Int) + 1 ≤ INT_MAX := by
    simp only [List.length_append, List.length_cons, Nat.cast_add, Nat.cast_one] at hlen
    omega
  have hnot : passLinePrinted (some msg) pre.length tc = false := by
    cases hb : passLinePrinted (some msg) pre.length tc with
    | false => rfl
    | true => exact absurd ((passLinePrinted_iff _ _ _ hk).mp hb).1 (by simp)
  have htext : caseText (some msg) pre.length tc
      = "Test " ++ toString (pre.length + 1) ++ ": FAIL\n" ++ "  Error: " ++ msg ++ "\n" := by
    rw [caseText_eq_caseReport _ _ _ hk]
    rfl
  rw [runHarness_closed_form fault _ hlen]
  simp only [List.enum_append, List.enumFrom_cons, List.map_append, List.map_cons,
    List.filter_append, List.filter_cons, hf, hnot, Bool.false_eq_true, if_false,
    List.length_append, join_append, join_cons, htext, String.append_assoc]

/-- Witness for C6: the second of the three built-in cases throws `std::bad_alloc`. -/
theorem thrown_iteration_reported_and_loop_continues_witness :
    (((([TestCase.mk "2 4 3\n5 6 4" "7 0 8"] : List TestCase) ++ (TestCase.mk "0\n0" "0")
        :: [TestCase.mk "9 9 9 9 9 9 9\n9 9 9 9" "8 9 9 9 0 0 0 1"]).length : Int) ≤ INT_MAX) ∧
    (fun k => if k = 1 then some "std::bad_alloc" else none)
        ([TestCase.mk "2 4 3\n5 6 4" "7 0 8"] : List TestCase).length = some "std::bad_alloc" ∧
    (runHarness (fun k => if k = 1 then some "std::bad_alloc" else none)
        ([TestCase.mk "2 4 3\n5 6 4" "7 0 8"] ++ (TestCase.mk "0\n0" "0")
          :: [TestCase.mk "9 9 9 9 9 9 9\n9 9 9 9" "8 9 9 9 0 0 0 1"])).out
      = "Test 1: FAIL\n  Input: 2 4 3\n5 6 4\n  Expected: 7 0 8\n  Actual: \n"
        ++ "Test 2: FAIL\n  Error: std::bad_alloc\n"
        ++ "Test 3: FAIL\n  Input: 9 9 9 9 9 9 9\n9 9 9 9\n  Expected: 8 9 9 9 0 0 0 1\n"
        ++ "  Actual: \n"
        ++ "TEST_RESULTS: 0/3\n" :=
  ⟨by decide, rfl,
    (thrown_iteration_reported_and_loop_continues
      (fun k => if k = 1 then some "std::bad_alloc" else none)
      [TestCase.mk "2 4 3\n5 6 4" "7 0 8"] (TestCase.mk "0\n0" "0")
      [TestCase.mk "9 9 9 9 9 9 9\n9 9 9 9" "8 9 9 9 0 0 0 1"] "std::bad_alloc" (by decide) rfl).2.trans
      (by decide)⟩

/-- C8: on the built-in test cases every expected output is non-empty while the
computed result is empty, so no case passes; the `try` block of every iteration
completes without throwing (absent allocation failures), so the handler is never
entered; the output is the text below, whose last line is "TEST_RESULTS: 0/3". -/
theorem secondMain_builtin_run :
    testCases.all (fun tc => !(evaluateCase tc).passed && tc.expectedOutput != ""
      && (evaluateCase tc).result == "") = true ∧
    (∀ (k : Nat) (i : Int) (tc : TestCase) (st : HarnessState),
      ∃ st' : HarnessState, tryBlock (noFault k) i tc st = Except.ok st') ∧
    (secondMain noFault).out
      = "Test 1: FAIL\n  Input: 2 4 3\n5 6 4\n  Expected: 7 0 8\n  Actual: \n"
        ++ "Test 2: FAIL\n  Input: 0\n0\n  Expected: 0\n  Actual: \n"
        ++ "Test 3: FAIL\n  Input: 9 9 9 9 9 9 9\n9 9 9 9\n  Expected: 8 9 9 9 0 0 0 1\n"
        ++ "  Actual: \n"
        ++ "TEST_RESULTS: 0/3\n" ∧
    (consoleLines (secondMain noFault).out).getLast? = some "TEST_RESULTS: 0/3" ∧
    (secondMain noFault).exitCode = 0 := by
  refine ⟨by decide, ?_, by decide, by decide, rfl⟩
  intro k i tc st
  exact ⟨_, tryBlock_none i tc st⟩

/-! ## `parseIntArray`: reading back decimal renderings -/

theorem digitChar_facts (m : Nat) (h : m < 10) :
    (Nat.digitChar m).isDigit = true ∧ digitValue (Nat.digitChar m) = m ∧
      isSpace (Nat.digitChar m) = false ∧ Nat.digitChar m ≠ '-' ∧ Nat.digitChar m ≠ '+' := by
  interval_cases m <;> decide

theorem readDigits_stop (s : List Char) (acc : Nat) (h : noDigitAhead s = true) :
    readDigits s acc = (acc, s) := by
  cases s with
  | nil => rfl
  | cons c t =>
    have hc : c.isDigit = false := by simpa [noDigitAhead] using h
    simp [readDigits, hc]

theorem readDigits_ge (s : List Char) : ∀ acc : Nat, acc ≤ (readDigits s acc).1 := by
  induction s with
  | nil => intro acc; simp [readDigits]
  | cons c t ih =>
    intro acc
    by_cases hc : c.isDigit = true
    · have := ih (10 * acc + digitValue c)
      simp only [readDigits, hc, if_true]
      omega
    · simp [readDigits, hc]

theorem readDigits_rest_length (s : List Char) :
    ∀ acc : Nat, (readDigits s acc).2.length ≤ s.length := by
  induction s with
  | nil => intro acc; simp [readDigits]
  | cons c t ih =>
    intro acc
    by_cases hc : c.isDigit = true
    · have := ih (10 * acc + digitValue c)
      simp only [readDigits, hc, if_true, List.length_cons]
      omega
    · simp [readDigits, hc]

theorem readDigits_toDigitsCore (tail : List Char) (fuel : Nat) :
    ∀ (n : Nat) (ds : List Char), n < fuel →
      readDigits (Nat.toDigitsCore 10 fuel n ds ++ tail) 0 = readDigits (ds ++ tail) n := by
  induction fuel with
  | zero => intro n ds h; omega
  | succ fuel ih =>
    intro n ds h
    obtain ⟨hd, hv, -, -, -⟩ := digitChar_facts (n % 10) (Nat.mod_lt _ (by decide))
    rw [Nat.toDigitsCore]
    by_cases hq : n / 10 = 0
    · have hn : n % 10 = n := Nat.mod_eq_of_lt (by omega)
      rw [hn] at hd hv
      simp only [hq, if_true, List.cons_append, readDigits, hn, hd, hv]
      simp
    · simp only [hq, if_false]
      rw [ih (n / 10) _ (by omega)]
      simp only [List.cons_append, readDigits, hd, if_true, hv]
      congr 1
      omega

theorem toDigitsCore_head (fuel : Nat) :
    ∀ (n : Nat) (ds : List Char), n < fuel →
      ∃ (m : Nat) (cs : List Char), m < 10 ∧ Nat.toDigitsCore 10 fuel n ds = Nat.digitChar m :: cs := by
  induction fuel with
  | zero => intro n ds h; omega
  | succ fuel ih =>
    intro n ds h
    rw [Nat.toDigitsCore]
    by_cases hq : n / 10 = 0
    · exact ⟨n % 10, ds, Nat.mod_lt _ (by decide), by simp [hq]⟩
    · simp only [hq, if_false]
      exact ih (n / 10) _ (by omega)

theorem skipWhitespace_blank_append (ws s : List Char) (h : ws.all isSpace = true) :
    skipWhitespace (ws ++ s) = skipWhitespace s := by
  induction ws with
  | nil => rfl
  | cons c t ih =>
    simp only [List.all_cons, Bool.and_eq_true] at h
    simp only [List.cons_append, skipWhitespace, h.1, if_true]
    exact ih h.2

theorem skipWhitespace_cons (c : Char) (s : List Char) (h : isSpace c = false) :
    skipWhitespace (c :: s) = c :: s := by
  simp [skipWhitespace, h]

theorem data_toString_ofNat (m : Nat) :
    (toString (Int.ofNat m)).data = Nat.toDigitsCore 10 (m + 1) m [] := rfl

theorem data_toString_negSucc (m : Nat) :
    (toString (Int.negSucc m)).data = '-' :: Nat.toDigitsCore 10 (m + 2) (m + 1) [] := rfl

theorem extractInt_toString (ws tail : List Char) (x : Int) (hws : ws.all isSpace = true)
    (h₁ : INT_MIN ≤ x) (h₂ : x ≤ INT_MAX) (htail : noDigitAhead tail = true) :
    extractInt (ws ++ (toString x).data ++ tail) = some (x, tail) := by
  rw [List.append_assoc, extractInt, skipWhitespace_blank_append _ _ hws]
  cases x with
  | ofNat m =>
    obtain ⟨d, cs, hd, hcs⟩ := toDigitsCore_head (m + 1) m [] (Nat.lt_succ_self _)
    obtain ⟨hdig, -, hsp, hminus, hplus⟩ := digitChar_facts d hd
    have hread := readDigits_toDigitsCore tail (m + 1) m [] (Nat.lt_succ_self _)
    rw [hcs] at hread
    simp only [List.nil_append, List.cons_append] at hread
    rw [data_toString_ofNat, hcs, List.cons_append, skipWhitespace_cons _ _ hsp]
    simp only [hminus, hplus, or_self, if_false, hdig, if_true, hread,
      readDigits_stop tail m htail, decide_False, Bool.false_eq_true]
    have : INT_MIN ≤ (m : Int) ∧ (m : Int) ≤ INT_MAX := ⟨h₁, h₂⟩
    simp only [this, and_self, if_true]
    rfl
  | negSucc m =>
    obtain ⟨d, cs, hd, hcs⟩ := toDigitsCore_head (m + 2) (m + 1) [] (Nat.lt_succ_self _)
    obtain ⟨hdig, -, -, -, -⟩ := digitChar_facts d hd
    have hread := readDigits_toDigitsCore tail (m + 2) (m + 1) [] (Nat.lt_succ_self _)
    rw [hcs] at hread
    simp only [List.nil_append, List.cons_append] at hread
    have hsp : isSpace '-' = false := by decide
    rw [data_toString_negSucc, hcs, List.cons_append, skipWhitespace_cons _ _ hsp]
    simp only [true_or, if_true, List.cons_append, hdig, hread,
      readDigits_stop tail (m + 1) htail, decide_True]
    have hv : -((m + 1 : Nat) : Int) = Int.negSucc m := by
      rw [Int.negSucc_eq]; push_cast; rfl
    rw [hv]
    have : INT_MIN ≤ Int.negSucc m ∧ Int.negSucc m ≤ INT_MAX := ⟨h₁, h₂⟩
    simp only [this, and_self, if_true]

theorem toString_int_data_pos (x : Int) : 0 < (toString x).data.length := by
  cases x with
  | ofNat m =>
    obtain ⟨d, cs, -, hcs⟩ := toDigitsCore_head (m + 1) m [] (Nat.lt_succ_self _)
    rw [data_toString_ofNat, hcs]
    simp
  | negSucc m =>
    rw [data_toString_negSucc]
    simp

theorem isSpace_not_digit (c : Char) (h : isSpace c = true) : c.isDigit = false := by
  simp only [isSpace, Bool.or_eq_true, decide_eq_true_eq] at h
  rcases h with ((((h | h) | h) | h) | h) | h <;> subst h <;> decide

theorem noDigitAhead_blank_append (ws s : List Char) (hws : ws.all isSpace = true)
    (hs : ws = [] → noDigitAhead s = true) : noDigitAhead (ws ++ s) = true := by
  cases ws with
  | nil => simpa using hs rfl
  | cons c t =>
    simp only [List.all_cons, Bool.and_eq_true] at hws
    simp [noDigitAhead, isSpace_not_digit c hws.1]

theorem extractInt_blank (ws : List Char) (hws : ws.all isSpace = true) :
    extractInt ws = none := by
  have h := skipWhitespace_blank_append ws [] hws
  rw [List.append_nil] at h
  simp [extractInt, h, skipWhitespace]

theorem extractInt_stopper (ws r : List Char) (c : Char) (hws : ws.all isSpace = true)
    (hd : c.isDigit = false) (hplus : c ≠ '+') (hminus : c ≠ '-') (hsp : isSpace c = false) :
    extractInt (ws ++ c :: r) = none := by
  rw [extractInt, skipWhitespace_blank_append _ _ hws, skipWhitespace_cons _ _ hsp]
  simp [hd, hplus, hminus]

theorem extractInt_out_of_range (ws after : List Char) (n : Int) (hws : ws.all isSpace = true)
    (hn : n < INT_MIN ∨ INT_MAX < n) :
    extractInt (ws ++ (toString n).data ++ after) = none := by
  rw [List.append_assoc, extractInt, skipWhitespace_blank_append _ _ hws]
  cases n with
  | ofNat m =>
    obtain ⟨d, cs, hd, hcs⟩ := toDigitsCore_head (m + 1) m [] (Nat.lt_succ_self _)
    obtain ⟨hdig, -, hsp, hminus, hplus⟩ := digitChar_facts d hd
    have hread := readDigits_toDigitsCore after (m + 1) m [] (Nat.lt_succ_self _)
    rw [hcs] at hread
    simp only [List.nil_append, List.cons_append] at hread
    have hge := readDigits_ge after m
    have hbig : ¬ (INT_MIN ≤ ((readDigits after m).1 : Int)
        ∧ ((readDigits after m).1 : Int) ≤ INT_MAX) := by
      have hm : INT_MAX < (m : Int) := by
        rcases hn with h | h
        · simp only [INT_MIN, Int.ofNat_eq_coe] at h; omega
        · exact h
      simp only [INT_MAX] at hm ⊢
      omega
    rw [data_toString_ofNat, hcs, List.cons_append, skipWhitespace_cons _ _ hsp]
    simp only [hminus, hplus, or_self, if_false, hdig, if_true, hread,
      decide_False, Bool.false_eq_true, hbig]
  | negSucc m =>
    obtain ⟨d, cs, hd, hcs⟩ := toDigitsCore_head (m + 2) (m + 1) [] (Nat.lt_succ_self _)
    obtain ⟨hdig, -, -, -, -⟩ := digitChar_facts d hd
    have hread := readDigits_toDigitsCore after (m + 2) (m + 1) [] (Nat.lt_succ_self _)
    rw [hcs] at hread
    simp only [List.nil_append, List.cons_append] at hread
    have hge := readDigits_ge after (m + 1)
    have hbig : ¬ (INT_MIN ≤ -((readDigits after (m + 1)).1 : Int)
        ∧ -((readDigits after (m + 1)).1 : Int) ≤ INT_MAX) := by
      have hm : Int.negSucc m < INT_MIN := by
        rcases hn with h | h
        · exact h
        · simp only [INT_MAX] at h
          have := Int.negSucc_lt_zero m
          omega
      rw [Int.negSucc_eq] at hm
      simp only [INT_MIN] at hm ⊢
      omega
    have hsp : isSpace '-' = false := by decide
    rw [data_toString_negSucc, hcs, List.cons_append, skipWhitespace_cons _ _ hsp]
    simp only [true_or, if_true, List.cons_append, hdig, hread, decide_True, hbig, if_false]

theorem parseLoop_items (final : List Char) (hfinal : extractInt final = none)
    (hnd : noDigitAhead final = true) :
    ∀ (items : List (String × Int)) (fuel : Nat) (acc : List Int),
      (∀ p ∈ items, isBlank p.1 = true ∧ INT_MIN ≤ p.2 ∧ p.2 ≤ INT_MAX) →
      (∀ p ∈ items.tail, p.1 ≠ "") →
      ((String.join (items.map fun p => p.1 ++ toString p.2)).data ++ final).length < fuel →
      parseLoop fuel ((String.join (items.map fun p => p.1 ++ toString p.2)).data ++ final) acc
        = acc ++ items.map Prod.snd := by
  intro items
  induction items with
  | nil =>
    intro fuel acc _ _ hfuel
    cases fuel with
    | zero => omega
    | succ f =>
      have : (String.join []).data = [] := rfl
      simp [this, parseLoop, hfinal]
  | cons p rest ih =>
    intro fuel acc hitems hsep hfuel
    have hp := hitems p (by simp)
    have hcont : noDigitAhead
        ((String.join (rest.map fun p => p.1 ++ toString p.2)).data ++ final) = true := by
      cases rest with
      | nil =>
        have : (String.join []).data = [] := rfl
        simpa [this] using hnd
      | cons q rest' =>
        have hq := hitems q (by simp)
        have hqne : q.1.data ≠ [] := fun e => hsep q (by simp) (String.ext e)
        simp only [List.map_cons, join_cons, String.data_append, List.append_assoc]
        exact noDigitAhead_blank_append _ _ hq.1 (fun e => absurd e hqne)
    have hext := extractInt_toString p.1.data
      ((String.join (rest.map fun p => p.1 ++ toString p.2)).data ++ final) p.2 hp.1
      hp.2.1 hp.2.2 hcont
    have hpos := toString_int_data_pos p.2
    simp only [List.map_cons, join_cons, String.data_append, List.append_assoc,
      List.length_append] at hfuel ⊢
    rw [← List.append_assoc] at hext
    simp only [List.append_assoc] at hext
    cases fuel with
    | zero => omega
    | succ f =>
      simp only [parseLoop, hext]
      rw [ih f (acc ++ [p.2]) (fun r hr => hitems r (by simp [hr]))
        (fun r hr => hsep r (by simp only [List.tail_cons]; exact List.mem_of_mem_tail hr))
        (by simp only [List.length_append]; omega)]
      simp

/-! ## The extraction loop does not depend on its fuel -/

theorem skipWhitespace_length (s : List Char) : (skipWhitespace s).length ≤ s.length := by
  induction s with
  | nil => simp [skipWhitespace]
  | cons c t ih =>
    by_cases hc : isSpace c = true
    · simp only [skipWhitespace, hc, if_true, List.length_cons]
      omega
    · simp [skipWhitespace, hc]

theorem extractInt_consumes (s s' : List Char) (x : Int) (h : extractInt s = some (x, s')) :
    s'.length < s.length := by
  have hsk := skipWhitespace_length s
  unfold extractInt at h
  cases hs : skipWhitespace s with
  | nil => simp [hs] at h
  | cons c rest =>
    rw [hs] at hsk h
    simp only [List.length_cons] at hsk
    cases hb : (if c = '-' ∨ c = '+' then rest else c :: rest) with
    | nil => simp [hb] at h
    | cons d b =>
      have hbl : (d :: b).length ≤ rest.length + 1 := by
        rw [← hb]
        split <;> simp
      simp only [hb] at h
      by_cases hd : d.isDigit = true
      · have hr := readDigits_rest_length b (10 * 0 + digitValue d)
        simp only [hd, if_true, readDigits, Option.ite_none_right_eq_some, Option.some.injEq,
          Prod.mk.injEq] at h
        rw [← h.2.2]
        simp only [List.length_cons] at hbl
        omega
      · simp [hd] at h

theorem parseLoop_fuel (n : Nat) :
    ∀ (m : Nat) (s : List Char) (acc : List Int), s.length < n → s.length < m →
      parseLoop n s acc = parseLoop m s acc := by
  induction n with
  | zero => intro m s acc hn; omega
  | succ n ih =>
    intro m s acc hn hm
    cases m with
    | zero => omega
    | succ m =>
      simp only [parseLoop]
      cases he : extractInt s with
      | none => rfl
      | some r =>
        obtain ⟨x, s'⟩ := r
        have := extractInt_consumes s s' x he
        exact ih m s' _ (by omega) (by omega)

theorem intercalate_go (s : String) (l : List String) :
    ∀ acc : String, String.intercalate.go acc s l = acc ++ String.join (l.map fun a => s ++ a) := by
  induction l with
  | nil =>
    intro acc
    apply String.ext
    simp [String.intercalate.go, String.data_join, String.data_append]
  | cons a t ih =>
    intro acc
    rw [String.intercalate.go, ih, List.map_cons, join_cons]
    simp only [String.append_assoc]

theorem render_eq_singleSpaced (xs : List Int) :
    render xs = String.join ((singleSpaced xs).map fun p => p.1 ++ toString p.2) := by
  cases xs with
  | nil => rfl
  | cons x rest =>
    simp only [render, List.map_cons, String.intercalate, intercalate_go, singleSpaced,
      join_cons, String.empty_append, List.map_map]
    rfl

theorem singleSpaced_snd (xs : List Int) : (singleSpaced xs).map Prod.snd = xs := by
  cases xs with
  | nil => rfl
  | cons x rest => simp [singleSpaced, Function.comp_def]

theorem singleSpaced_ok (xs : List Int) (hrange : ∀ x ∈ xs, INT_MIN ≤ x ∧ x ≤ INT_MAX) :
    (∀ p ∈ singleSpaced xs, isBlank p.1 = true ∧ INT_MIN ≤ p.2 ∧ p.2 ≤ INT_MAX) ∧
      (∀ p ∈ (singleSpaced xs).tail, p.1 ≠ "") := by
  cases xs with
  | nil => simp [singleSpaced]
  | cons x rest =>
    constructor
    · intro p hp
      simp only [singleSpaced, List.mem_cons, List.mem_map] at hp
      rcases hp with rfl | ⟨y, hy, rfl⟩
      · exact ⟨rfl, hrange x (by simp)⟩
      · exact ⟨(by decide : isBlank " " = true), hrange y (by simp [hy])⟩
    · intro p hp
      simp only [singleSpaced, List.tail_cons, List.mem_map] at hp
      obtain ⟨y, -, rfl⟩ := hp
      exact (by decide : (" " : String) ≠ "")

theorem parseIntArray_items (items : List (String × Int)) (final : String)
    (hfinal : extractInt final.data = none) (hnd : noDigitAhead final.data = true)
    (hitems : ∀ p ∈ items, isBlank p.1 = true ∧ INT_MIN ≤ p.2 ∧ p.2 ≤ INT_MAX)
    (hsep : ∀ p ∈ items.tail, p.1 ≠ "") :
    parseIntArray (String.join (items.map fun p => p.1 ++ toString p.2) ++ final)
      = items.map Prod.snd := by
  have h := parseLoop_items final.data hfinal hnd items
    (((String.join (items.map fun p => p.1 ++ toString p.2)).data ++ final.data).length + 1) []
    hitems hsep (Nat.lt_succ_self _)
  simp only [List.nil_append] at h
  simp only [parseIntArray, String.length, String.data_append]
  exact h

theorem blank_final (trail : String) (h : isBlank trail = true) :
    extractInt trail.data = none ∧ noDigitAhead trail.data = true := by
  refine ⟨extractInt_blank _ h, ?_⟩
  have := noDigitAhead_blank_append trail.data [] h (fun _ => rfl)
  simpa using this

/-- C9: `parseIntArray` reads back decimal renderings. For integers within the `int`
range, each written in decimal (with a leading '-' when negative) after its own run
of whitespace (possibly empty before the first, at least one character before each
of the others) and followed by optional trailing whitespace, the result is exactly
the list of those integers in order; the same holds for the single-space rendering
`render`; an all-whitespace line, and the empty line, give the empty list; and
"2 4 3" gives [2, 4, 3]. -/
theorem parseIntArray_inverts_rendering (items : List (String × Int)) (trail : String)
    (hblank : ∀ p ∈ items, isBlank p.1 = true)
    (hsep : ∀ p ∈ items.tail, p.1 ≠ "")
    (htrail : isBlank trail = true)
    (hrange : ∀ p ∈ items, INT_MIN ≤ p.2 ∧ p.2 ≤ INT_MAX) :
    parseIntArray (renderSpaced items trail) = items.map Prod.snd ∧
    parseIntArray (render (items.map Prod.snd)) = items.map Prod.snd ∧
    parseIntArray trail = [] ∧
    parseIntArray "" = [] ∧
    parseIntArray "2 4 3" = [2, 4, 3] := by
  obtain ⟨hf, hnd⟩ := blank_final trail htrail
  refine ⟨?_, ?_, ?_, by decide, by decide⟩
  · exact parseIntArray_items items trail hf hnd (fun p hp => ⟨hblank p hp, hrange p hp⟩) hsep
  · have hr : ∀ x ∈ items.map Prod.snd, INT_MIN ≤ x ∧ x ≤ INT_MAX := by
      intro x hx
      obtain ⟨p, hp, rfl⟩ := List.mem_map.mp hx
      exact hrange p hp
    obtain ⟨h₁, h₂⟩ := singleSpaced_ok _ hr
    have h := parseIntArray_items (singleSpaced (items.map Prod.snd)) "" rfl rfl h₁ h₂
    rw [← render_eq_singleSpaced, singleSpaced_snd, String.append_empty] at h
    exact h
  · have h := parseIntArray_items [] trail hf hnd (by simp) (by simp)
    have he : String.join (([] : List (String × Int)).map fun p => p.1 ++ toString p.2) = "" :=
      rfl
    rw [he, String.empty_append] at h
    exact h

/-- Witness for C9: mixed whitespace, a negative element and both range ends. -/
theorem parseIntArray_inverts_rendering_witness :
    (∀ p ∈ [(" ", (2 : Int)), ("\t ", -4), ("\n", 2147483647), (" ", -2147483648)],
      isBlank p.1 = true) ∧
    (∀ p ∈ [(" ", (2 : Int)), ("\t ", -4), ("\n", 2147483647), (" ", -2147483648)].tail,
      p.1 ≠ "") ∧
    isBlank " \r" = true ∧
    (∀ p ∈ [(" ", (2 : Int)), ("\t ", -4), ("\n", 2147483647), (" ", -2147483648)],
      INT_MIN ≤ p.2 ∧ p.2 ≤ INT_MAX) ∧
    renderSpaced [(" ", 2), ("\t ", -4), ("\n", 2147483647), (" ", -2147483648)] " \r"
      = " 2\t -4\n2147483647 -2147483648 \r" ∧
    parseIntArray
        (renderSpaced [(" ", 2), ("\t ", -4), ("\n", 2147483647), (" ", -2147483648)] " \r")
      = [2, -4, 2147483647, -2147483648] :=
  ⟨by decide, by decide, by decide, by decide, by decide,
    (parseIntArray_inverts_rendering
      [(" ", 2), ("\t ", -4), ("\n", 2147483647), (" ", -2147483648)] " \r"
      (by decide) (by decide) (by decide) (by decide)).1⟩

/-- C10: `parseIntArray` stops at the first place where no in-range integer can be
read and returns what it has read so far. For integers `xs` within the `int` range:
if `rest` starts with a character that is not a digit, a sign or whitespace, then
`render xs`, a space and `rest` parse to `xs`, whatever else `rest` contains; and if
`n` lies outside the `int` range, then `render xs`, a space, the decimal rendering of
`n` and any further text parse to `xs`. The result is always a plain list: no error
is reported. For example "1 2 x 3" gives [1, 2]. -/
theorem parseIntArray_stops_silently (xs : List Int) (rest : String) (c : Char) (n : Int)
    (after : String)
    (hrange : ∀ x ∈ xs, INT_MIN ≤ x ∧ x ≤ INT_MAX)
    (hfirst : rest.data.head? = some c)
    (hc : c.isDigit = false ∧ c ≠ '+' ∧ c ≠ '-' ∧ isSpace c = false)
    (hn : n < INT_MIN ∨ INT_MAX < n) :
    parseIntArray (render xs ++ " " ++ rest) = xs ∧
    parseIntArray (render xs ++ " " ++ toString n ++ after) = xs ∧
    parseIntArray "1 2 x 3" = [1, 2] := by
  obtain ⟨h₁, h₂⟩ := singleSpaced_ok xs hrange
  have hsp : [' '].all isSpace = true := by decide
  refine ⟨?_, ?_, by decide⟩
  · obtain ⟨r, hr⟩ : ∃ r, rest.data = c :: r := by
      cases hd : rest.data with
      | nil => simp [hd] at hfirst
      | cons a r =>
        rw [hd] at hfirst
        simp only [List.head?_cons, Option.some.injEq] at hfirst
        exact ⟨r, by rw [hfirst]⟩
    have hf : extractInt (" " ++ rest).data = none := by
      rw [String.data_append, hr]
      exact extractInt_stopper [' '] r c hsp hc.1 hc.2.1 hc.2.2.1 hc.2.2.2
    have hnd : noDigitAhead (" " ++ rest).data = true := by
      rw [String.data_append]
      exact noDigitAhead_blank_append [' '] _ hsp (by simp)
    have h := parseIntArray_items (singleSpaced xs) (" " ++ rest) hf hnd h₁ h₂
    rw [← render_eq_singleSpaced, singleSpaced_snd, ← String.append_assoc] at h
    exact h
  · have hf : extractInt (" " ++ toString n ++ after).data = none := by
      simp only [String.data_append]
      exact extractInt_out_of_range [' '] after.data n hsp hn
    have hnd : noDigitAhead (" " ++ toString n ++ after).data = true := by
      simp only [String.data_append, List.append_assoc]
      exact noDigitAhead_blank_append [' '] _ hsp (by simp)
    have h := parseIntArray_items (singleSpaced xs) (" " ++ toString n ++ after) hf hnd h₁ h₂
    rw [← render_eq_singleSpaced, singleSpaced_snd, ← String.append_assoc,
      ← String.append_assoc] at h
    exact h

/-- Witness for C10: the rest "x 3" after [1, 2], and the token 2147483648 followed
by " 5". -/
theorem parseIntArray_stops_silently_witness :
    (∀ x ∈ [(1 : Int), 2], INT_MIN ≤ x ∧ x ≤ INT_MAX) ∧
    ("x 3" : String).data.head? = some 'x' ∧
    ('x'.isDigit = false ∧ 'x' ≠ '+' ∧ 'x' ≠ '-' ∧ isSpace 'x' = false) ∧
    ((2147483648 : Int) < INT_MIN ∨ INT_MAX < (2147483648 : Int)) ∧
    parseIntArray (render [1, 2] ++ " " ++ "x 3") = [1, 2] ∧
    parseIntArray (render [1, 2] ++ " " ++ toString (2147483648 : Int) ++ " 5") = [1, 2] ∧
    parseIntArray "1 2 x 3" = [1, 2] :=
  ⟨by decide, by decide, by decide, by decide,
    parseIntArray_stops_silently [1, 2] "x 3" 'x' 2147483648 " 5"
      (by decide) (by decide) (by decide) (by decide)⟩

end OnlineJudge
